import Mathlib

/-!
Verification of the publish core of pixi-animate-extension.

Shallow embedding of:
- `src/extension/tools/lib/objects/Shape.js` — the Shape constructor that
  compiles vector path data into a flat draw-opcode list, rounding every
  numeric coordinate in place;
- `src/src/extension/publish/items/Container.js` — the timeline reduction
  (`getChildren`), mask-interval bookkeeping (`onMaskAdded` /
  `onMaskRemoved`), mask lookup (`getMaskByInstance`) and content assembly
  (`getContents`, `renderChildrenMasks`, `renderChildren`,
  `renderAddChildren`, `renderInstance`).

Modelling conventions:
- JS numbers appearing in path data are modelled as exact rationals; JS
  `Math.round` on such values returns the nearest integer with ties toward
  positive infinity, i.e. `⌊x + 1/2⌋`.
- JS object identity (`===`) between Instance objects is modelled by the
  `instanceId` field: within one Container, `instancesMap` creates exactly
  one Instance object per id, so two references are the same object iff
  they carry the same id.  An undefined reference is `none`.
- The external Instance collaborator is modelled by the render-relevant
  data the Container reads from it (`isSound`, `renderable`, `localName`)
  plus its per-frame command history; `instance.render(renderer, mask)` is
  an opaque function supplied by the `Renderer` parameter.
- Fallible rendering (a JS `TypeError` on `undefined.localName` when a mask
  interval holds an undefined mask reference) is modelled by `Option`.
-/

namespace Anim

/-! ## Shape (src/extension/tools/lib/objects/Shape.js) -/

/-- A value inside a path's data: a JS number (exact rational) or a string
(style opcode argument or sub-opcode). -/
inductive DrawVal where
  | num (q : ℚ)
  | str (s : String)
deriving DecidableEq

/-- One vector path handed to the Shape constructor. -/
structure Path where
  stroke : Bool
  color : DrawVal
  thickness : DrawVal
  alpha : DrawVal
  d : List DrawVal
deriving DecidableEq

/-- JS `Math.round` on an exact rational: nearest integer, ties toward
positive infinity. -/
def jsRound (x : ℚ) : ℤ := ⌊x + 1 / 2⌋

/-- `Math.round(command * 100) / 100` from the Shape constructor. -/
def round2 (x : ℚ) : ℚ := (jsRound (x * 100) : ℚ) / 100

/-- The body of the `path.d.forEach` callback: a numeric entry is replaced by
its rounded value, any other entry is left alone. -/
def roundCmd : DrawVal → DrawVal
  | DrawVal.num q => DrawVal.num (round2 q)
  | v => v

/-- The contents of `path.d` after the constructor's in-place rounding pass. -/
def pathD (p : Path) : List DrawVal := p.d.map roundCmd

/-- The style opcodes one path pushes: `s, color, thickness, alpha` for a
stroke, `f, color, alpha` for a fill. -/
def pathStyle (p : Path) : List DrawVal :=
  if p.stroke then [DrawVal.str ("s"), p.color, p.thickness, p.alpha]
  else [DrawVal.str ("f"), p.color, p.alpha]

/-- Everything one path contributes to `draw`: style opcodes, then the
post-rounding `d` values in order. -/
def pathSegment (p : Path) : List DrawVal := pathStyle p ++ pathD p

/-- The constructor loop over `this.paths` with loop counter `j`:
`if (j > 0) draw.push("cp")`, then the current path's contribution. -/
def buildDraw (j : Nat) : List Path → List DrawVal
  | [] => []
  | p :: rest =>
      (if 0 < j then [DrawVal.str ("cp")] else []) ++ pathSegment p ++ buildDraw (j + 1) rest

/-- The `draw` array built by the Shape constructor. -/
def shapeDraw (paths : List Path) : List DrawVal := buildDraw 0 paths

/-- The caller's `paths` after Shape construction: the constructor mutates
each `path.d` entry in place through the `forEach` callback; every other
field of every path is untouched. -/
def shapePaths (paths : List Path) : List Path :=
  paths.map (fun p => { p with d := pathD p })

/-- The constructed Shape: `name = "Shape" + id`, the compiled `draw` list,
and the (mutated) paths. -/
structure Shape where
  name : String
  draw : List DrawVal
  paths : List Path

def mkShape (id : Nat) (paths : List Path) : Shape :=
  { name := ("Shape" ++ toString id), draw := shapeDraw paths, paths := shapePaths paths }

/-- The rounding rule as worded by the spec: round half AWAY FROM ZERO.
This is the spec-side rule, used to compare against the code's rule. -/
def roundHalfAwayFromZero (x : ℚ) : ℤ :=
  if 0 ≤ x then ⌊x + 1 / 2⌋ else -⌊-x + 1 / 2⌋

/-- `round(x*100)/100` with the spec's half-away-from-zero tie rule. -/
def specRound2 (x : ℚ) : ℚ := (roundHalfAwayFromZero (x * 100) : ℚ) / 100

/-- Concrete fill path with a single negative coordinate ending in an exact
half after scaling by 100: `-0.125 * 100 = -12.5`. -/
def pNeg : Path :=
  { stroke := false, color := DrawVal.num 0, thickness := DrawVal.num 0,
    alpha := DrawVal.num 1, d := [DrawVal.num (-(1 / 8))] }

/-- Concrete fill path whose only coordinate is `1.23456`. -/
def pRound : Path :=
  { stroke := false, color := DrawVal.num 0, thickness := DrawVal.num 0,
    alpha := DrawVal.num 1, d := [DrawVal.num (3858 / 3125)] }

/-- Concrete stroke path with two coordinates and a sub-opcode. -/
def pStroke : Path :=
  { stroke := true, color := DrawVal.str ("#fff"), thickness := DrawVal.num 1,
    alpha := DrawVal.num 1,
    d := [DrawVal.str ("m"), DrawVal.num (3 / 2), DrawVal.num 2] }

/-! ## Container data model (src/src/extension/publish/items/Container.js) -/

/-- The mask lifecycle event an Instance fires while `addToFrame` processes a
command (the external Instance emits `maskAdded` / `maskRemoved`
synchronously; the emission is recorded on the command itself). -/
inductive MaskEvent where
  | added
  | removed
deriving DecidableEq

/-- One authoring command: the target instance id, the asset id, the
`maskTill` field carried by mask commands (absent reads as undefined), and
the mask event the command makes its Instance emit, if any. -/
structure Command where
  instanceId : Nat
  assetId : Nat
  maskTill : Option Nat
  event : Option MaskEvent
deriving DecidableEq

/-- One timeline frame: `{frame, commands}`. -/
structure Frame where
  frame : Int
  commands : List Command
deriving DecidableEq

/-- What `library.createInstance(assetId, instanceId)` determines about the
returned Instance: its concrete variant (sound or not), its renderability,
and its declared local name. -/
structure LibEntry where
  isSound : Bool
  renderable : Bool
  localName : String
deriving DecidableEq

/-- The external library collaborator, indexed by `(assetId, instanceId)`. -/
def Library : Type := Nat → Nat → LibEntry

/-- The identity-carrying, render-relevant data the Container reads from one
Instance object.  JS object identity is `instanceId` (one object per id). -/
structure InstProps where
  instanceId : Nat
  assetId : Nat
  isSound : Bool
  renderable : Bool
  localName : String
deriving DecidableEq

/-- `library.createInstance(assetId, instanceId)`, projected to props. -/
def mkProps (lib : Library) (assetId instanceId : Nat) : InstProps :=
  { instanceId := instanceId, assetId := assetId,
    isSound := (lib assetId instanceId).isSound,
    renderable := (lib assetId instanceId).renderable,
    localName := (lib assetId instanceId).localName }

/-- A live Instance: its props plus the per-frame command history that
`addToFrame(frame, command)` accumulates in walk order. -/
structure Instance where
  props : InstProps
  history : List (Int × Command)
deriving DecidableEq

/-- One mask interval `{instance, mask, frame, duration}` as recorded by
`onMaskAdded`.  `inst` (the masked target; source field name `instance`) and
`mask` hold possibly-undefined instance references. -/
structure MaskInterval where
  inst : Option InstProps
  mask : Option InstProps
  frame : Int
  duration : Option Int
deriving DecidableEq

/-- The Container's mutable state: `instancesMap` (the id-keyed object),
`masks`, the candidate/final `children` list, `addChildren`, and — as
instrumentation — the sequence of ids passed to `library.createInstance`,
in call order. -/
structure ContainerState where
  instancesMap : Nat → Option Instance
  masks : List MaskInterval
  children : List InstProps
  addChildren : List String
  created : List Nat

/-- The state of a freshly constructed Container before the walk. -/
def initState : ContainerState :=
  { instancesMap := fun _ => none, masks := [], children := [], addChildren := [],
    created := [] }

/-- JS `===` on possibly-undefined Instance references. -/
def optInstEq : Option InstProps → Option InstProps → Bool
  | none, none => true
  | some a, some b => a.instanceId == b.instanceId
  | _, _ => false

/-- `this.instancesMap[id]`, projected to the instance's identity. -/
def resolveProps (st : ContainerState) (id : Nat) : Option InstProps :=
  (st.instancesMap id).map (fun i => i.props)

/-- `this.instancesMap[x]` for a possibly-absent id field. -/
def resolveOpt (st : ContainerState) : Option Nat → Option InstProps
  | none => none
  | some id => resolveProps st id

/-- `onMaskAdded(command, frame)`: resolve mask and masked target and append
an open interval to `this.masks`. -/
def onMaskAdded (st : ContainerState) (c : Command) (frame : Int) : ContainerState :=
  { st with masks := st.masks ++
      [{ inst := resolveOpt st c.maskTill, mask := resolveProps st c.instanceId,
         frame := frame, duration := none }] }

/-- `onMaskRemoved(command, frame)`: for every interval whose `mask` is the
resolved instance, set `duration = frame - entry.frame`. -/
def onMaskRemoved (st : ContainerState) (c : Command) (frame : Int) : ContainerState :=
  { st with masks := st.masks.map (fun e =>
      if optInstEq e.mask (resolveProps st c.instanceId) then
        { e with duration := some (frame - e.frame) }
      else e) }

/-- `this.instancesMap[k] = v`. -/
def mapSet (m : Nat → Option Instance) (k : Nat) (v : Instance) : Nat → Option Instance :=
  fun id => if id = k then some v else m id

/-- The tail of the per-command body of the `getChildren` walk, after the
Instance has been resolved and its history extended: the Instance fires the
command's mask event, then the candidate-children append runs
(`!(instance instanceof SoundInstance) && children.indexOf(instance) == -1`). -/
def afterAttach (st : ContainerState) (c : Command) (frame : Int)
    (props : InstProps) : ContainerState :=
  let st1 := match c.event with
    | some MaskEvent.added => onMaskAdded st c frame
    | some MaskEvent.removed => onMaskRemoved st c frame
    | none => st
  if !props.isSound && !(st1.children.any (fun p => p.instanceId == props.instanceId)) then
    { st1 with children := st1.children ++ [props] }
  else st1

/-- One command of the `getChildren` walk: look up or lazily create the
Instance (creation registers it in `instancesMap` and is logged in
`created`), attach the command via `addToFrame`, then `afterAttach`. -/
def processCommand (lib : Library) (frame : Int) (st : ContainerState)
    (c : Command) : ContainerState :=
  match st.instancesMap c.instanceId with
  | some inst =>
    let inst1 : Instance := { inst with history := inst.history ++ [(frame, c)] }
    afterAttach { st with instancesMap := mapSet st.instancesMap c.instanceId inst1 }
      c frame inst1.props
  | none =>
    let props := mkProps lib c.assetId c.instanceId
    let inst1 : Instance := { props := props, history := [(frame, c)] }
    afterAttach
      { st with instancesMap := mapSet st.instancesMap c.instanceId inst1,
                created := st.created ++ [c.instanceId] }
      c frame props

/-- One frame of the walk: commands in original order. -/
def processFrame (lib : Library) (st : ContainerState) (f : Frame) : ContainerState :=
  f.commands.foldl (processCommand lib f.frame) st

/-- The whole walk: frames in sequence order. -/
def runFrames (lib : Library) (frames : List Frame) (st : ContainerState) :
    ContainerState :=
  frames.foldl (processFrame lib) st

/-- The Container state right after the construction walk, before the
renderability pass. -/
def walkState (lib : Library) (frames : List Frame) : ContainerState :=
  runFrames lib frames initState

/-- The flattened walk order: frames in sequence, commands in original order
within each frame, tagged with their frame index. -/
def allCmds (frames : List Frame) : List (Int × Command) :=
  (frames.map (fun f => f.commands.map (fun c => (f.frame, c)))).flatten

/-- `children.splice(i, 1)`. -/
def spliceAt (l : List InstProps) (i : Nat) : List InstProps :=
  l.take i ++ l.drop (i + 1)

/-- The backward removal pass
`for (i = children.length - 1; i >= 0; i--) if (!children[i].renderable) children.splice(i, 1)`;
`spliceLoop l n` still has indices `n-1 .. 0` to visit (the out-of-range
guard is never taken from the entry point `n = l.length`). -/
def spliceLoop (l : List InstProps) : Nat → List InstProps
  | 0 => l
  | i + 1 =>
    if h : i < l.length then
      if (l.get ⟨i, h⟩).renderable then spliceLoop l i
      else spliceLoop (spliceAt l i) i
    else spliceLoop l i

/-- `getChildren` as invoked by the constructor: the walk, then the backward
renderability pass, then `children.reverse()`. -/
def getChildren (lib : Library) (frames : List Frame) : ContainerState :=
  let st := walkState lib frames
  { st with children := (spliceLoop st.children st.children.length).reverse }

/-! ## Container rendering -/

/-- The renderer collaborator: the `compress` flag, plus the external
`instance.render(renderer, maskName)` call modelled as a function of the
instance's identity and the passed mask name. -/
structure Renderer where
  compress : Bool
  irender : InstProps → Option String → String

/-- `getMaskByInstance(instance)`: linear scan of `this.masks` for the first
interval whose `instance` field is the given instance.  The outer `none`
models the TypeError thrown when that interval's `mask` is undefined;
`some none` is a returned `null`. -/
def getMaskByInstance (masks : List MaskInterval) (inst : InstProps) :
    Option (Option String) :=
  match masks with
  | [] => some none
  | e :: rest =>
    if optInstEq e.inst (some inst) then
      match e.mask with
      | some mk => some (some mk.localName)
      | none => none
    else getMaskByInstance rest inst

/-- `renderInstance(renderer, instance)`: push the instance's local name to
`addChildren`, then render it with the looked-up mask name. -/
def renderInstance (r : Renderer) (st : ContainerState) (inst : InstProps) :
    Option (String × ContainerState) :=
  match getMaskByInstance st.masks inst with
  | none => none
  | some mn =>
    some (r.irender inst mn, { st with addChildren := st.addChildren ++ [inst.localName] })

/-- The `renderChildrenMasks` loop body over the remaining intervals: deref
`masks[i].mask` (TypeError when undefined) and render it. -/
def renderMasksGo (r : Renderer) : List MaskInterval → ContainerState →
    Option (String × ContainerState)
  | [], st => some (("") , st)
  | e :: rest, st =>
    match e.mask with
    | none => none
    | some mk =>
      match renderInstance r st mk with
      | none => none
      | some (frag, st1) =>
        match renderMasksGo r rest st1 with
        | none => none
        | some (buf, st2) => some (frag ++ buf, st2)

/-- `renderChildrenMasks(renderer)`. -/
def renderChildrenMasks (r : Renderer) (st : ContainerState) :
    Option (String × ContainerState) :=
  renderMasksGo r st.masks st

/-- The `renderChildren` loop body over the remaining children. -/
def renderChildrenGo (r : Renderer) : List InstProps → ContainerState →
    Option (String × ContainerState)
  | [], st => some (("") , st)
  | c :: rest, st =>
    match renderInstance r st c with
    | none => none
    | some (frag, st1) =>
      match renderChildrenGo r rest st1 with
      | none => none
      | some (buf, st2) => some (frag ++ buf, st2)

/-- `renderChildren(renderer)`. -/
def renderChildren (r : Renderer) (st : ContainerState) :
    Option (String × ContainerState) :=
  renderChildrenGo r st.children st

/-- `renderAddChildren(renderer)`: emit nothing when `addChildren` is empty,
otherwise `this.ac(...)` under `compress` and `this.addChild(...)` otherwise,
with the collected names joined by a comma and space. -/
def renderAddChildren (r : Renderer) (st : ContainerState) : String :=
  if st.addChildren.length == 0 then ("")
  else ("this.") ++ (if r.compress then ("ac") else ("addChild")) ++ ("(")
    ++ String.intercalate (", ") st.addChildren ++ (");")

/-- `getContents(renderer)`: masks pass, children pass, then the static
`addChild` statement, concatenated in that order. -/
def getContents (r : Renderer) (st : ContainerState) :
    Option (String × ContainerState) :=
  match renderChildrenMasks r st with
  | none => none
  | some (pre, st1) =>
    match renderChildren r st1 with
    | none => none
    | some (buf, st2) => some (pre ++ buf ++ renderAddChildren r st2, st2)

/-- Concatenation of a list of rendered fragments. -/
def strConcat : List String → String
  | [] => ""
  | s :: rest => s ++ strConcat rest

/-- The pure render fragment of one instance against a fixed mask list. -/
def instFragment (r : Renderer) (masks : List MaskInterval) (inst : InstProps) :
    String :=
  r.irender inst (Option.join (getMaskByInstance masks inst))

/-- The local names of the mask instances of the recorded intervals,
in interval order. -/
def maskNames (masks : List MaskInterval) : List String :=
  (masks.filterMap (fun e => e.mask)).map (fun p => p.localName)

/-- The local names of a children list, in order. -/
def childNames (children : List InstProps) : List String :=
  children.map (fun p => p.localName)

/-- The invariant of the `getChildren` walk, after `processed` tagged
commands have been handled: `created` lists the distinct instance ids in
first-seen order, `instancesMap` holds exactly the created instances with
their full per-frame histories, and no sound instance is ever a candidate
child. -/
structure WalkInv (processed : List (Int × Command)) (st : ContainerState) : Prop where
  created_nodup : st.created.Nodup
  created_mem : ∀ id, id ∈ st.created ↔ id ∈ processed.map (fun pr => pr.2.instanceId)
  lookup_some : ∀ id, (st.instancesMap id).isSome = true ↔ id ∈ st.created
  lookup_props : ∀ id i, st.instancesMap id = some i →
    i.props.instanceId = id ∧
      i.history = processed.filter (fun pr => pr.2.instanceId == id)
  sound_free : ∀ p ∈ st.children, p.isSound = false

/-! ## Concrete inputs used by witnesses -/

/-- A library where every instance is a renderable non-sound node. -/
def lib0 : Library := fun _ id =>
  { isSound := false, renderable := true, localName := ("n") ++ toString id }

/-- A compressing renderer whose instance render emits the local name. -/
def r0 : Renderer := { compress := true, irender := fun p _ => p.localName }

def pA : InstProps :=
  { instanceId := 1, assetId := 10, isSound := false, renderable := true,
    localName := ("A") }

def pB : InstProps :=
  { instanceId := 2, assetId := 20, isSound := false, renderable := true,
    localName := ("B") }

/-- A recorded interval: `pA` masks `pB` from frame 0. -/
def mi0 : MaskInterval := { inst := some pB, mask := some pA, frame := 0, duration := none }

/-- A Container about to render: one mask interval, one child, empty
`addChildren`. -/
def st0 : ContainerState :=
  { instancesMap := fun _ => none, masks := [mi0], children := [pB],
    addChildren := [], created := [] }

/-- A Container with `pA` registered under id 1 and one open interval whose
mask is `pA`. -/
def stM : ContainerState :=
  { instancesMap := fun id => if id = 1 then some { props := pA, history := [] } else none,
    masks := [{ inst := some pB, mask := some pA, frame := 2, duration := none }],
    children := [], addChildren := [], created := [1] }

/-- A command addressed to instance 1. -/
def cM : Command := { instanceId := 1, assetId := 10, maskTill := none, event := none }

/-- Two frames, both with one command for the same instance id 1. -/
def frames0 : List Frame :=
  [{ frame := 0, commands := [{ instanceId := 1, assetId := 10, maskTill := none, event := none }] },
   { frame := 1, commands := [{ instanceId := 1, assetId := 10, maskTill := none, event := none }] }]

/-! ## Shape lemmas -/

theorem buildDraw_pos (l : List Path) (i j : Nat) :
    buildDraw (i + 1) l = buildDraw (j + 1) l := by
  induction l generalizing i j with
  | nil => rfl
  | cons p rest ih =>
    simp only [buildDraw, Nat.succ_pos, if_pos]
    rw [ih (i + 1) (j + 1)]

theorem shapeDraw_cons (p : Path) (rest : List Path) :
    shapeDraw (p :: rest) = pathSegment p ++ buildDraw 1 rest := by
  simp [shapeDraw, buildDraw]

theorem buildDraw_one (l : List Path) :
    buildDraw 1 l = (l.map (fun q => DrawVal.str ("cp") :: pathSegment q)).flatten := by
  induction l with
  | nil => rfl
  | cons q rest ih =>
    simp only [buildDraw, Nat.succ_pos, if_pos, List.map_cons, List.flatten_cons]
    rw [buildDraw_pos rest 1 0, ih]
    simp

theorem count_cp_flatten (rest : List Path)
    (h : ∀ q ∈ rest, DrawVal.str ("cp") ∉ pathSegment q) :
    ((rest.map (fun q => DrawVal.str ("cp") :: pathSegment q)).flatten).count
      (DrawVal.str ("cp")) = rest.length := by
  induction rest with
  | nil => rfl
  | cons q t ih =>
    simp only [List.map_cons, List.flatten_cons, List.count_append, List.count_cons_self,
      List.length_cons]
    rw [List.count_eq_zero.mpr (h q (List.mem_cons_self q t)),
      ih (fun x hx => h x (List.mem_cons_of_mem q hx))]
    omega

/-- C9: a Shape built from `p :: rest` puts no `cp` before the first path and
exactly one `cp` before each later path; each path's segment is its style
opcodes followed by its rounded `d` values; when no path data contains the
literal `cp` string, the total `cp` count is `N - 1`. -/
theorem shape_cp_count (p : Path) (rest : List Path) :
    shapeDraw (p :: rest) =
        pathSegment p ++ (rest.map (fun q => DrawVal.str ("cp") :: pathSegment q)).flatten
      ∧ (p.stroke = true →
          pathSegment p =
            DrawVal.str ("s") :: p.color :: p.thickness :: p.alpha :: p.d.map roundCmd)
      ∧ (p.stroke = false →
          pathSegment p = DrawVal.str ("f") :: p.color :: p.alpha :: p.d.map roundCmd)
      ∧ ((∀ q ∈ p :: rest, DrawVal.str ("cp") ∉ pathSegment q) →
          (shapeDraw (p :: rest)).count (DrawVal.str ("cp")) = (p :: rest).length - 1) := by
  refine ⟨?_, ?_, ?_, ?_⟩
  · rw [shapeDraw_cons, buildDraw_one]
  · intro hs; simp [pathSegment, pathStyle, pathD, hs]
  · intro hs; simp [pathSegment, pathStyle, pathD, hs]
  · intro h
    rw [shapeDraw_cons, buildDraw_one, List.count_append,
      List.count_eq_zero.mpr (h p (List.mem_cons_self p rest)),
      count_cp_flatten rest (fun x hx => h x (List.mem_cons_of_mem p hx))]
    simp

/-- C9 witness: two concrete paths (one fill, one stroke). -/
theorem shape_cp_count_witness :
    (∀ q ∈ pRound :: [pStroke], DrawVal.str ("cp") ∉ pathSegment q) ∧
      (shapeDraw (pRound :: [pStroke])).count (DrawVal.str ("cp")) =
        (pRound :: [pStroke]).length - 1 := by
  have h : ∀ q ∈ pRound :: [pStroke], DrawVal.str ("cp") ∉ pathSegment q := by
    intro q hq
    rcases List.mem_cons.mp hq with rfl | h1
    · simp [pathSegment, pathStyle, pathD, pRound, roundCmd]
    · rcases List.mem_cons.mp h1 with rfl | h2
      · simp [pathSegment, pathStyle, pathD, pStroke, roundCmd]
      · cases h2
  exact ⟨h, (shape_cp_count pRound [pStroke]).2.2.2 h⟩

/-- C7 (amended): every numeric entry of a path's `d` is rounded by the exact
rule `round(x*100)/100` where `round` takes halves toward positive infinity
(JS `Math.round`); every non-numeric entry passes through unchanged in its
original position. -/
theorem shape_rounding (p : Path) (k : Nat) :
    (∀ q : ℚ, p.d[k]? = some (DrawVal.num q) →
        (pathD p)[k]? = some (DrawVal.num ((⌊q * 100 + 1 / 2⌋ : ℤ) / 100 : ℚ)))
      ∧ (∀ s : String, p.d[k]? = some (DrawVal.str s) →
        (pathD p)[k]? = some (DrawVal.str s)) := by
  constructor
  · intro q hq
    simp [pathD, List.getElem?_map, hq, roundCmd, round2, jsRound]
  · intro s hs
    simp [pathD, List.getElem?_map, hs, roundCmd]

/-- C7 witness: the spec's own example, `1.23456` becomes `1.23`. -/
theorem shape_rounding_witness :
    pRound.d[0]? = some (DrawVal.num (3858 / 3125)) ∧
      (pathD pRound)[0]? =
        some (DrawVal.num ((⌊(3858 / 3125 : ℚ) * 100 + 1 / 2⌋ : ℤ) / 100 : ℚ)) :=
  ⟨rfl, (shape_rounding pRound 0).1 (3858 / 3125) rfl⟩

/-- C7 counterexample: on the coordinate `-0.125` the code produces `-0.12`
(`Math.round(-12.5) = -12`, ties toward positive infinity), while the claim's
half-away-from-zero rule demands `-0.13`. -/
theorem shape_round_half_cex :
    shapeDraw [pNeg] =
        [DrawVal.str ("f"), DrawVal.num 0, DrawVal.num 1, DrawVal.num (-(3 / 25))]
      ∧ DrawVal.num (-(3 / 25)) ≠ DrawVal.num (specRound2 (-(1 / 8))) := by
  constructor
  · simp only [shapeDraw, buildDraw, pathSegment, pathStyle, pathD, pNeg, List.map_cons,
      List.map_nil, roundCmd, round2, jsRound]
    norm_num
  · simp only [ne_eq, DrawVal.num.injEq, specRound2, roundHalfAwayFromZero]
    norm_num

/-- C10: constructing a Shape rewrites each input path's `d` array in place,
replacing every numeric entry by its rounded value and keeping every other
entry and every other path field untouched. -/
theorem shape_mutates_input (paths : List Path) (i : Nat) (p : Path)
    (h : paths[i]? = some p) :
    (shapePaths paths)[i]? = some { p with d := p.d.map roundCmd }
      ∧ (shapePaths paths).length = paths.length
      ∧ (∀ q : ℚ, roundCmd (DrawVal.num q) = DrawVal.num (round2 q))
      ∧ (∀ s : String, roundCmd (DrawVal.str s) = DrawVal.str s) := by
  refine ⟨?_, ?_, fun q => rfl, fun s => rfl⟩
  · simp [shapePaths, List.getElem?_map, h, pathD]
  · simp [shapePaths]

/-- C10 witness: the single-path input `[pRound]` comes back with its `d`
entry overwritten by the rounded value (so the caller's data did change). -/
theorem shape_mutates_input_witness :
    ([pRound] : List Path)[0]? = some pRound ∧
      (shapePaths [pRound])[0]? = some { pRound with d := pRound.d.map roundCmd } ∧
      { pRound with d := pRound.d.map roundCmd } ≠ pRound :=
  ⟨rfl, (shape_mutates_input [pRound] 0 pRound rfl).1, by
    simp only [ne_eq, Path.mk.injEq, pRound, List.map_cons, List.map_nil, roundCmd,
      round2, jsRound]
    norm_num⟩

/-! ## Container render lemmas -/

theorem getMask_isSome (masks : List MaskInterval) (inst : InstProps)
    (h : ∀ e ∈ masks, e.mask.isSome = true) :
    (getMaskByInstance masks inst).isSome = true := by
  induction masks with
  | nil => rfl
  | cons e rest ih =>
    rw [getMaskByInstance]
    by_cases hc : optInstEq e.inst (some inst) = true
    · rw [if_pos hc]
      have hm := h e (List.mem_cons_self e rest)
      rcases hmk : e.mask with _ | mk
      · rw [hmk] at hm; simp at hm
      · simp [hmk]
    · rw [if_neg hc]
      exact ih (fun x hx => h x (List.mem_cons_of_mem e hx))

theorem renderInstance_spec (r : Renderer) (st : ContainerState) (inst : InstProps)
    (mn : Option String) (h : getMaskByInstance st.masks inst = some mn) :
    renderInstance r st inst =
      some (instFragment r st.masks inst,
        { st with addChildren := st.addChildren ++ [inst.localName] }) := by
  simp [renderInstance, h, instFragment, Option.join]

theorem renderMasksGo_spec (r : Renderer) (ms : List MaskInterval) :
    ∀ st : ContainerState, (∀ e ∈ ms, e.mask.isSome = true) →
      (∀ e ∈ st.masks, e.mask.isSome = true) →
      renderMasksGo r ms st =
        some (strConcat ((ms.filterMap (fun e => e.mask)).map (instFragment r st.masks)),
          { st with addChildren := st.addChildren ++ maskNames ms }) := by
  induction ms with
  | nil =>
    intro st _ _
    simp [renderMasksGo, maskNames, strConcat]
  | cons e rest ih =>
    intro st h hall
    obtain ⟨mk, hmk⟩ := Option.isSome_iff_exists.mp (h e (List.mem_cons_self e rest))
    obtain ⟨mn, hmn⟩ := Option.isSome_iff_exists.mp (getMask_isSome st.masks mk hall)
    have hrest : ∀ x ∈ rest, x.mask.isSome = true :=
      fun x hx => h x (List.mem_cons_of_mem e hx)
    have hih := ih { st with addChildren := st.addChildren ++ [mk.localName] } hrest hall
    simp only [renderMasksGo, hmk]
    rw [renderInstance_spec r st mk mn hmn]
    simp [hih, maskNames, List.filterMap_cons, hmk, strConcat, instFragment, hmn,
      Option.join, List.append_assoc]

theorem renderChildrenGo_spec (r : Renderer) (cs : List InstProps) :
    ∀ st : ContainerState, (∀ e ∈ st.masks, e.mask.isSome = true) →
      renderChildrenGo r cs st =
        some (strConcat (cs.map (instFragment r st.masks)),
          { st with addChildren := st.addChildren ++ childNames cs }) := by
  induction cs with
  | nil =>
    intro st _
    simp [renderChildrenGo, childNames, strConcat]
  | cons c rest ih =>
    intro st hall
    obtain ⟨mn, hmn⟩ := Option.isSome_iff_exists.mp (getMask_isSome st.masks c hall)
    have hih := ih { st with addChildren := st.addChildren ++ [c.localName] } hall
    simp only [renderChildrenGo]
    rw [renderInstance_spec r st c mn hmn]
    simp [hih, childNames, strConcat, List.append_assoc]

theorem getContents_spec (r : Renderer) (st : ContainerState)
    (hall : ∀ e ∈ st.masks, e.mask.isSome = true) :
    getContents r st =
      some (strConcat ((st.masks.filterMap (fun e => e.mask)).map (instFragment r st.masks))
          ++ strConcat (st.children.map (instFragment r st.masks))
          ++ renderAddChildren r
              { st with addChildren :=
                  st.addChildren ++ maskNames st.masks ++ childNames st.children },
        { st with addChildren :=
            st.addChildren ++ maskNames st.masks ++ childNames st.children }) := by
  have h1 := renderMasksGo_spec r st.masks st hall hall
  have h2 := renderChildrenGo_spec r st.children
    { st with addChildren := st.addChildren ++ maskNames st.masks } hall
  simp only [getContents, renderChildrenMasks, renderChildren, h1, h2]

theorem length_maskNames (masks : List MaskInterval)
    (h : ∀ e ∈ masks, e.mask.isSome = true) :
    (maskNames masks).length = masks.length := by
  induction masks with
  | nil => rfl
  | cons e rest ih =>
    obtain ⟨mk, hmk⟩ := Option.isSome_iff_exists.mp (h e (List.mem_cons_self e rest))
    have := ih (fun x hx => h x (List.mem_cons_of_mem e hx))
    simp [maskNames, List.filterMap_cons, hmk] at this ⊢
    exact this

/-- C1: on a Container whose `addChildren` starts empty, one full
`getContents` pass leaves `addChildren` holding exactly the mask names (one
per interval) followed by the child names (one per content child), so its
length is `masks.length + children.length` with the mask names first. -/
theorem container_addChildren_count (r : Renderer) (st : ContainerState)
    (h0 : st.addChildren = []) (hall : ∀ e ∈ st.masks, e.mask.isSome = true) :
    ∃ out st1, getContents r st = some (out, st1)
      ∧ st1.addChildren = maskNames st.masks ++ childNames st.children
      ∧ (maskNames st.masks).length = st.masks.length
      ∧ st1.addChildren.length = st.masks.length + st.children.length := by
  refine ⟨_, _, getContents_spec r st hall, ?_, length_maskNames st.masks hall, ?_⟩
  · simp [h0]
  · simp [h0, length_maskNames st.masks hall, childNames]

/-- C1 witness: the concrete Container `st0` (one interval, one child). -/
theorem container_addChildren_count_witness :
    st0.addChildren = [] ∧ (∀ e ∈ st0.masks, e.mask.isSome = true) ∧
      ∃ out st1, getContents r0 st0 = some (out, st1)
        ∧ st1.addChildren = maskNames st0.masks ++ childNames st0.children
        ∧ (maskNames st0.masks).length = st0.masks.length
        ∧ st1.addChildren.length = st0.masks.length + st0.children.length :=
  ⟨rfl, by decide, container_addChildren_count r0 st0 rfl (by decide)⟩

/-- C6: `getContents` is the concatenation of all mask-instance fragments (in
interval order), then all child fragments (in children order), then the
trailing static-addition statement, which uses `ac` under `compress` and
`addChild` otherwise, joins the accumulated `addChildren` names with a comma
and space, and is omitted when `addChildren` ends up empty. -/
theorem getContents_order (r : Renderer) (st : ContainerState)
    (hall : ∀ e ∈ st.masks, e.mask.isSome = true) :
    getContents r st =
      some (strConcat ((st.masks.filterMap (fun e => e.mask)).map (instFragment r st.masks))
          ++ strConcat (st.children.map (instFragment r st.masks))
          ++ (if (st.addChildren ++ maskNames st.masks ++ childNames st.children).length == 0
              then ("")
              else ("this.") ++ (if r.compress then ("ac") else ("addChild")) ++ ("(")
                ++ String.intercalate (", ")
                    (st.addChildren ++ maskNames st.masks ++ childNames st.children)
                ++ (");")),
        { st with addChildren :=
            st.addChildren ++ maskNames st.masks ++ childNames st.children }) := by
  rw [getContents_spec r st hall]
  simp [renderAddChildren]

/-- C6 witness: the concrete Container `st0` under the compressing `r0`. -/
theorem getContents_order_witness :
    (∀ e ∈ st0.masks, e.mask.isSome = true) ∧
      getContents r0 st0 =
        some (strConcat ((st0.masks.filterMap (fun e => e.mask)).map
              (instFragment r0 st0.masks))
            ++ strConcat (st0.children.map (instFragment r0 st0.masks))
            ++ (if (st0.addChildren ++ maskNames st0.masks ++ childNames st0.children).length
                  == 0 then ("")
                else ("this.") ++ (if r0.compress then ("ac") else ("addChild")) ++ ("(")
                  ++ String.intercalate (", ")
                      (st0.addChildren ++ maskNames st0.masks ++ childNames st0.children)
                  ++ (");")),
          { st0 with addChildren :=
              st0.addChildren ++ maskNames st0.masks ++ childNames st0.children }) :=
  ⟨by decide, getContents_order r0 st0 (by decide)⟩

/-- C2: `onMaskRemoved(command, frame)` resolves the mask instance at
`command.instanceId` and updates every interval whose `mask` field is that
instance to `duration = frame - interval.frame`, leaves every other interval
untouched, and is a silent no-op on the whole list when nothing matches. -/
theorem onMaskRemoved_broadcast (st : ContainerState) (c : Command) (frame : Int) :
    (onMaskRemoved st c frame).masks.length = st.masks.length
      ∧ (∀ (i : Nat) (e : MaskInterval), st.masks[i]? = some e →
          (onMaskRemoved st c frame).masks[i]? =
            some (if optInstEq e.mask (resolveProps st c.instanceId) then
                { e with duration := some (frame - e.frame) }
              else e))
      ∧ ((∀ e ∈ st.masks, optInstEq e.mask (resolveProps st c.instanceId) = false) →
          (onMaskRemoved st c frame).masks = st.masks) := by
  refine ⟨by simp [onMaskRemoved], ?_, ?_⟩
  · intro i e he
    simp only [onMaskRemoved]
    rw [List.getElem?_map, he]
    rfl
  · intro h
    simp only [onMaskRemoved]
    show st.masks.map _ = st.masks
    calc st.masks.map _ = st.masks.map id :=
          List.map_congr_left (fun e he => by simp [h e he])
      _ = st.masks := List.map_id st.masks

/-- C2 witness: removing mask `pA` at frame 5 closes the single interval of
`stM` (opened at frame 2) with duration 3; a non-matching removal is a
no-op. -/
theorem onMaskRemoved_broadcast_witness :
    stM.masks[0]? = some { inst := some pB, mask := some pA, frame := 2, duration := none }
      ∧ (onMaskRemoved stM cM 5).masks[0]? =
          some (if optInstEq (some pA) (resolveProps stM cM.instanceId) then
              { inst := some pB, mask := some pA, frame := 2, duration := some (5 - 2) }
            else { inst := some pB, mask := some pA, frame := 2, duration := none }) :=
  ⟨by decide, by
    have := (onMaskRemoved_broadcast stM cM 5).2.1 0
      { inst := some pB, mask := some pA, frame := 2, duration := none } (by decide)
    simpa using this⟩

/-- C8: `getMaskByInstance` returns the mask's local name from the first
recorded interval whose `instance` field is the given instance (later
matching intervals are never consulted), and returns null when no interval
matches. -/
theorem getMaskByInstance_first_match (inst : InstProps) :
    (∀ (pre post : List MaskInterval) (e : MaskInterval) (mk : InstProps),
        (∀ x ∈ pre, optInstEq x.inst (some inst) = false) →
        optInstEq e.inst (some inst) = true → e.mask = some mk →
        getMaskByInstance (pre ++ e :: post) inst = some (some mk.localName))
      ∧ (∀ masks : List MaskInterval,
          (∀ x ∈ masks, optInstEq x.inst (some inst) = false) →
          getMaskByInstance masks inst = some none) := by
  constructor
  · intro pre post e mk hpre he hmk
    induction pre with
    | nil => simp [getMaskByInstance, he, hmk]
    | cons x xs ih =>
      rw [List.cons_append, getMaskByInstance]
      rw [hpre x (List.mem_cons_self x xs)]
      simp only [Bool.false_eq_true, if_false]
      exact ih (fun y hy => hpre y (List.mem_cons_of_mem x hy))
  · intro masks h
    induction masks with
    | nil => rfl
    | cons x xs ih =>
      rw [getMaskByInstance, h x (List.mem_cons_self x xs)]
      simp only [Bool.false_eq_true, if_false]
      exact ih (fun y hy => h y (List.mem_cons_of_mem x hy))

/-- C8 witness: instance `pB` is the masked target of `mi0`, whose mask is
`pA`; on an empty mask list the lookup returns null. -/
theorem getMaskByInstance_first_match_witness :
    optInstEq mi0.inst (some pB) = true ∧ mi0.mask = some pA
      ∧ getMaskByInstance ([] ++ mi0 :: []) pB = some (some pA.localName)
      ∧ getMaskByInstance [] pB = some none :=
  ⟨by decide, by decide,
    (getMaskByInstance_first_match pB).1 [] [] mi0 pA (by simp) (by decide) (by decide),
    (getMaskByInstance_first_match pB).2 [] (by simp)⟩

/-! ## The getChildren walk -/

theorem afterAttach_instancesMap (st : ContainerState) (c : Command) (frame : Int)
    (props : InstProps) :
    (afterAttach st c frame props).instancesMap = st.instancesMap := by
  rcases hev : c.event with _ | ev
  · simp only [afterAttach, hev]
    split <;> rfl
  · cases ev <;> simp only [afterAttach, hev, onMaskAdded, onMaskRemoved] <;> split <;> rfl

theorem afterAttach_created (st : ContainerState) (c : Command) (frame : Int)
    (props : InstProps) :
    (afterAttach st c frame props).created = st.created := by
  rcases hev : c.event with _ | ev
  · simp only [afterAttach, hev]
    split <;> rfl
  · cases ev <;> simp only [afterAttach, hev, onMaskAdded, onMaskRemoved] <;> split <;> rfl

theorem afterAttach_children_cases (st : ContainerState) (c : Command) (frame : Int)
    (props : InstProps) :
    (afterAttach st c frame props).children = st.children
      ∨ ((afterAttach st c frame props).children = st.children ++ [props]
          ∧ props.isSound = false) := by
  have key : ∀ st1 : ContainerState, st1.children = st.children →
      (if !props.isSound && !(st1.children.any (fun p => p.instanceId == props.instanceId))
        then { st1 with children := st1.children ++ [props] } else st1).children = st.children
        ∨ ((if !props.isSound
              && !(st1.children.any (fun p => p.instanceId == props.instanceId))
            then { st1 with children := st1.children ++ [props] } else st1).children =
              st.children ++ [props]
            ∧ props.isSound = false) := by
    intro st1 hch
    by_cases hc : (!props.isSound
        && !(st1.children.any (fun p => p.instanceId == props.instanceId))) = true
    · rw [if_pos hc]
      right
      refine ⟨by simp [hch], ?_⟩
      have := ((Bool.and_eq_true _ _).mp hc).1
      simpa using this
    · rw [if_neg hc]
      left
      exact hch
  rcases hev : c.event with _ | ev
  · simpa only [afterAttach, hev] using key st rfl
  · cases ev
    · simpa only [afterAttach, hev, onMaskAdded] using key (onMaskAdded st c frame) rfl
    · simpa only [afterAttach, hev, onMaskRemoved] using key (onMaskRemoved st c frame) rfl

theorem walkInv_step (lib : Library) (pr : Int × Command)
    (processed : List (Int × Command)) (st : ContainerState)
    (h : WalkInv processed st) :
    WalkInv (processed ++ [pr]) (processCommand lib pr.1 st pr.2) := by
  obtain ⟨fr, c⟩ := pr
  cases hm : st.instancesMap c.instanceId with
  | some inst =>
    have hmem : c.instanceId ∈ st.created := by
      apply (h.lookup_some c.instanceId).mp
      rw [hm]
      rfl
    simp only [processCommand, hm]
    refine ⟨?_, ?_, ?_, ?_, ?_⟩
    · rw [afterAttach_created]
      exact h.created_nodup
    · intro id
      rw [afterAttach_created]
      show id ∈ st.created ↔ _
      rw [List.map_append, List.mem_append]
      constructor
      · intro hid
        exact Or.inl ((h.created_mem id).mp hid)
      · rintro (hid | hid)
        · exact (h.created_mem id).mpr hid
        · simp only [List.map_cons, List.map_nil, List.mem_singleton] at hid
          subst hid
          exact hmem
    · intro id
      rw [afterAttach_instancesMap, afterAttach_created]
      show ((mapSet st.instancesMap c.instanceId _) id).isSome = true ↔ id ∈ st.created
      simp only [mapSet]
      by_cases hid : id = c.instanceId
      · subst hid
        simpa using hmem
      · rw [if_neg hid]
        exact h.lookup_some id
    · intro id i hi
      rw [afterAttach_instancesMap] at hi
      simp only [mapSet] at hi
      by_cases hid : id = c.instanceId
      · subst hid
        rw [if_pos rfl] at hi
        have hieq : i = { inst with history := inst.history ++ [(fr, c)] } := by
          simpa using hi.symm
        subst hieq
        obtain ⟨hpid, hhist⟩ := h.lookup_props c.instanceId inst hm
        refine ⟨hpid, ?_⟩
        show inst.history ++ [(fr, c)] = _
        rw [hhist, List.filter_append]
        simp
      · rw [if_neg hid] at hi
        obtain ⟨hpid, hhist⟩ := h.lookup_props id i hi
        refine ⟨hpid, ?_⟩
        rw [hhist, List.filter_append]
        have hne : ((fr, c).2.instanceId == id) = false :=
          beq_eq_false_iff_ne.mpr (fun hh => hid hh.symm)
        simp [hne]
    · intro p hp
      rcases afterAttach_children_cases _ c fr _ with hcase | ⟨hcase, hsnd⟩
      · rw [hcase] at hp
        exact h.sound_free p hp
      · rw [hcase] at hp
        rcases List.mem_append.mp hp with hp1 | hp1
        · exact h.sound_free p hp1
        · simp only [List.mem_singleton] at hp1
          subst hp1
          exact hsnd
  | none =>
    have hnot : c.instanceId ∉ st.created := by
      intro hmem
      have := (h.lookup_some c.instanceId).mpr hmem
      rw [hm] at this
      simp at this
    have hnotid : c.instanceId ∉ processed.map (fun pr => pr.2.instanceId) :=
      fun hx => hnot ((h.created_mem c.instanceId).mpr hx)
    simp only [processCommand, hm]
    refine ⟨?_, ?_, ?_, ?_, ?_⟩
    · rw [afterAttach_created]
      show (st.created ++ [c.instanceId]).Nodup
      simp [List.nodup_append, h.created_nodup, hnot]
    · intro id
      rw [afterAttach_created]
      show id ∈ st.created ++ [c.instanceId] ↔ _
      rw [List.map_append, List.mem_append, List.mem_append]
      simp only [List.map_cons, List.map_nil, List.mem_singleton]
      exact or_congr (h.created_mem id) Iff.rfl
    · intro id
      rw [afterAttach_instancesMap, afterAttach_created]
      show ((mapSet st.instancesMap c.instanceId _) id).isSome = true
        ↔ id ∈ st.created ++ [c.instanceId]
      simp only [mapSet]
      by_cases hid : id = c.instanceId
      · subst hid
        simp
      · rw [if_neg hid]
        rw [h.lookup_some id]
        simp [hid]
    · intro id i hi
      rw [afterAttach_instancesMap] at hi
      simp only [mapSet] at hi
      by_cases hid : id = c.instanceId
      · subst hid
        rw [if_pos rfl] at hi
        have hieq : i = ⟨mkProps lib c.assetId c.instanceId, [(fr, c)]⟩ := by
          simpa using hi.symm
        subst hieq
        refine ⟨rfl, ?_⟩
        show [(fr, c)] = _
        rw [List.filter_append]
        have hf : processed.filter (fun pr => pr.2.instanceId == c.instanceId) = [] := by
          rw [List.filter_eq_nil_iff]
          intro a ha hba
          exact hnotid (List.mem_map.mpr ⟨a, ha, by simpa using hba⟩)
        rw [hf]
        simp
      · rw [if_neg hid] at hi
        obtain ⟨hpid, hhist⟩ := h.lookup_props id i hi
        refine ⟨hpid, ?_⟩
        rw [hhist, List.filter_append]
        have hne : ((fr, c).2.instanceId == id) = false :=
          beq_eq_false_iff_ne.mpr (fun hh => hid hh.symm)
        simp [hne]
    · intro p hp
      rcases afterAttach_children_cases _ c fr _ with hcase | ⟨hcase, hsnd⟩
      · rw [hcase] at hp
        exact h.sound_free p hp
      · rw [hcase] at hp
        rcases List.mem_append.mp hp with hp1 | hp1
        · exact h.sound_free p hp1
        · simp only [List.mem_singleton] at hp1
          subst hp1
          exact hsnd

theorem walkInv_foldl (lib : Library) (l : List (Int × Command)) :
    ∀ (processed : List (Int × Command)) (st : ContainerState), WalkInv processed st →
      WalkInv (processed ++ l)
        (l.foldl (fun acc pr => processCommand lib pr.1 acc pr.2) st) := by
  induction l with
  | nil =>
    intro processed st h
    simpa using h
  | cons pr t ih =>
    intro processed st h
    have h1 := walkInv_step lib pr processed st h
    have h2 := ih (processed ++ [pr]) _ h1
    simpa [List.append_assoc] using h2

theorem walkInv_init : WalkInv [] initState := by
  refine ⟨?_, ?_, ?_, ?_, ?_⟩ <;> simp [initState]

theorem runFrames_flat (lib : Library) (frames : List Frame) :
    ∀ st : ContainerState, runFrames lib frames st =
      (allCmds frames).foldl (fun acc pr => processCommand lib pr.1 acc pr.2) st := by
  induction frames with
  | nil => intro st; rfl
  | cons f rest ih =>
    intro st
    show runFrames lib rest (processFrame lib st f) = _
    rw [ih]
    rw [show allCmds (f :: rest)
        = f.commands.map (fun c => (f.frame, c)) ++ allCmds rest from by
      simp [allCmds]]
    rw [List.foldl_append]
    have : processFrame lib st f
        = (f.commands.map (fun c => (f.frame, c))).foldl
            (fun acc pr => processCommand lib pr.1 acc pr.2) st := by
      rw [List.foldl_map]
      rfl
    rw [this]

theorem walkInv_walkState (lib : Library) (frames : List Frame) :
    WalkInv (allCmds frames) (walkState lib frames) := by
  have h2 := walkInv_foldl lib (allCmds frames) [] initState walkInv_init
  rw [List.nil_append] at h2
  show WalkInv (allCmds frames) (runFrames lib frames initState)
  rw [runFrames_flat lib frames initState]
  exact h2

/-! ## The renderability pass -/

theorem spliceLoop_take_drop :
    ∀ (n : Nat) (l : List InstProps), n ≤ l.length →
      spliceLoop l n = (l.take n).filter (fun p => p.renderable) ++ l.drop n := by
  intro n
  induction n with
  | zero =>
    intro l _
    simp [spliceLoop]
  | succ i ih =>
    intro l h
    have hi : i < l.length := Nat.lt_of_lt_of_le (Nat.lt_succ_self i) h
    rw [spliceLoop, dif_pos hi]
    by_cases hr : (l.get ⟨i, hi⟩).renderable = true
    · rw [if_pos hr, ih l (Nat.le_of_lt hi)]
      have hr2 : l[i].renderable = true := by
        simpa [List.get_eq_getElem] using hr
      rw [List.take_succ, List.filter_append, List.getElem?_eq_getElem hi,
        List.drop_eq_getElem_cons hi]
      simp [hr2]
    · rw [if_neg hr]
      have hlen : i ≤ (spliceAt l i).length := by
        simp only [spliceAt, List.length_append, List.length_take, List.length_drop]
        omega
      rw [ih _ hlen]
      have htklen : (l.take i).length = i := by
        simp only [List.length_take]
        omega
      have htk : (spliceAt l i).take i = l.take i := by
        simp only [spliceAt]
        exact List.take_left' htklen
      have hdr : (spliceAt l i).drop i = l.drop (i + 1) := by
        simp only [spliceAt]
        exact List.drop_left' htklen
      rw [htk, hdr, List.take_succ, List.filter_append, List.getElem?_eq_getElem hi]
      have hr2 : l[i].renderable = false := by
        simpa [List.get_eq_getElem] using hr
      simp [hr2]

theorem spliceLoop_filter (l : List InstProps) :
    spliceLoop l l.length = l.filter (fun p => p.renderable) := by
  have := spliceLoop_take_drop l.length l le_rfl
  simpa using this

/-- `getChildren` equals the walk's candidate list, filtered by `renderable`
with relative order preserved, then reversed. -/
theorem getChildren_children_eq (lib : Library) (frames : List Frame) :
    (getChildren lib frames).children =
      ((walkState lib frames).children.filter (fun p => p.renderable)).reverse := by
  show (spliceLoop (walkState lib frames).children
      (walkState lib frames).children.length).reverse = _
  rw [spliceLoop_filter]

/-- C3: over any frame sequence, `createInstance` runs exactly once per
distinct `instanceId` (the creation log is duplicate-free and covers exactly
the referenced ids, so its length is the number of distinct ids), every
created instance is registered in `instancesMap` under its id, and every
instance's history is exactly the commands addressed to it, in walk order. -/
theorem getChildren_dedup_attach (lib : Library) (frames : List Frame) :
    (walkState lib frames).created.Nodup
      ∧ (∀ id, id ∈ (walkState lib frames).created ↔
          id ∈ (allCmds frames).map (fun pr => pr.2.instanceId))
      ∧ (∀ id, id ∈ (walkState lib frames).created →
          ∃ i, (walkState lib frames).instancesMap id = some i ∧ i.props.instanceId = id)
      ∧ (∀ id i, (walkState lib frames).instancesMap id = some i →
          i.history = (allCmds frames).filter (fun pr => pr.2.instanceId == id))
      ∧ (walkState lib frames).created.length =
          ((allCmds frames).map (fun pr => pr.2.instanceId)).dedup.length := by
  have hinv := walkInv_walkState lib frames
  refine ⟨hinv.created_nodup, hinv.created_mem, ?_, ?_, ?_⟩
  · intro id hid
    obtain ⟨i, hi⟩ := Option.isSome_iff_exists.mp ((hinv.lookup_some id).mpr hid)
    exact ⟨i, hi, (hinv.lookup_props id i hi).1⟩
  · intro id i hi
    exact (hinv.lookup_props id i hi).2
  · have hfin : (walkState lib frames).created.toFinset =
        ((allCmds frames).map (fun pr => pr.2.instanceId)).toFinset := by
      ext x
      simp [hinv.created_mem x]
    calc (walkState lib frames).created.length
        = (walkState lib frames).created.toFinset.card :=
          (List.toFinset_card_of_nodup hinv.created_nodup).symm
      _ = ((allCmds frames).map (fun pr => pr.2.instanceId)).toFinset.card := by
          rw [hfin]
      _ = ((allCmds frames).map (fun pr => pr.2.instanceId)).dedup.length :=
          List.card_toFinset _

/-- C3 witness: two commands for the same id create one instance. -/
theorem getChildren_dedup_attach_witness :
    (walkState lib0 frames0).created.Nodup
      ∧ (1 ∈ (walkState lib0 frames0).created)
      ∧ (∃ i, (walkState lib0 frames0).instancesMap 1 = some i
          ∧ i.props.instanceId = 1) :=
  ⟨(getChildren_dedup_attach lib0 frames0).1, by decide,
    (getChildren_dedup_attach lib0 frames0).2.2.1 1 (by decide)⟩

/-- C4: the backward in-place splice pass over the candidate list is the
stable forward filter by `renderable`, and `getChildren` returns that
filtered list reversed. -/
theorem children_splice_filter_reverse (lib : Library) (frames : List Frame) :
    (getChildren lib frames).children =
      ((walkState lib frames).children.filter (fun p => p.renderable)).reverse :=
  getChildren_children_eq lib frames

/-- C5: the final `children` list never contains a sound instance and never
contains a non-renderable instance. -/
theorem children_sound_renderable (lib : Library) (frames : List Frame)
    (p : InstProps) (h : p ∈ (getChildren lib frames).children) :
    p.isSound = false ∧ p.renderable = true := by
  rw [getChildren_children_eq, List.mem_reverse, List.mem_filter] at h
  exact ⟨(walkInv_walkState lib frames).sound_free p h.1, h.2⟩

/-- C5 witness: the instance created for id 1 is a child of the concrete
container and is neither sound nor non-renderable. -/
theorem children_sound_renderable_witness :
    mkProps lib0 10 1 ∈ (getChildren lib0 frames0).children
      ∧ (mkProps lib0 10 1).isSound = false
      ∧ (mkProps lib0 10 1).renderable = true :=
  ⟨by decide, children_sound_renderable lib0 frames0 _ (by decide)⟩

end Anim
